import Mathlib

/-!
Shallow embedding of the Rocket-Car idle/miner game core
(src/miner.rs and src/game_state.rs).

Rust `f32` currency amounts are modelled as `ℚ`; `Instant`/`Duration`
timestamps as `ℚ` (seconds); `i32` health as `ℤ`; `usize` levels as `ℕ`.
`Instant::duration_since` saturates at zero when the clock did not advance;
since every mining interval is positive, comparing the signed difference
`now - last_mine_time` against the interval decides exactly as the
saturating difference does, so we use the plain difference.
-/

inductive MinerType where
  | Player
  | Bot
deriving DecidableEq

/-- miner.rs: `STARTING_HEALTH: i32 = 10`. -/
def STARTING_HEALTH : ℤ := 10

/-- miner.rs: `struct Miner`. -/
structure Miner where
  miner_type : MinerType
  gold : ℚ
  donated_gold : ℚ
  pickaxe_level : Nat
  mine_level : Nat
  last_mine_time : ℚ
  health : ℤ
  alive : Bool
deriving DecidableEq

/-- miner.rs: `Miner::new` (the `Instant::now()` of creation is the
explicit `now` argument). -/
def Miner.new (miner_type : MinerType) (now : ℚ) : Miner :=
  { miner_type := miner_type
    gold := 0
    donated_gold := 0
    pickaxe_level := 0
    mine_level := 0
    last_mine_time := now
    health := STARTING_HEALTH
    alive := true }

/-- miner.rs: `Miner::mine_rate` (seconds between passive accruals,
indexed by pickaxe level). -/
def Miner.mine_rate (m : Miner) : ℚ :=
  match m.pickaxe_level with
  | 0 => 1
  | 1 => 3/4
  | 2 => 1/2
  | 3 => 1/4
  | 4 => 1/10
  | _ => 1

/-- miner.rs: `Miner::gold_per_mine` (yield per accrual, indexed by mine
level). -/
def Miner.gold_per_mine (m : Miner) : ℚ :=
  match m.mine_level with
  | 0 => 2
  | 1 => 3
  | 2 => 5
  | 3 => 8
  | 4 => 15
  | _ => 2

/-- The value of Rust's `f32::MAX`, which is exactly `(2 - 2⁻²³)·2¹²⁷`. -/
def f32MAX : ℚ := 2^128 - 2^104

/-- miner.rs: `Miner::pickaxe_upgrade_cost`. -/
def Miner.pickaxe_upgrade_cost (m : Miner) : ℚ :=
  match m.pickaxe_level with
  | 0 => 200
  | 1 => 400
  | 2 => 800
  | 3 => 1600
  | _ => f32MAX

/-- miner.rs: `Miner::mine_upgrade_cost`. -/
def Miner.mine_upgrade_cost (m : Miner) : ℚ :=
  match m.mine_level with
  | 0 => 100
  | 1 => 300
  | 2 => 600
  | 3 => 1000
  | _ => f32MAX

/-- miner.rs: `Miner::update` — the passive-income accrual. The wall clock
read by `Instant::now()` in Rust is the explicit `now` argument; Rust's
`elapsed` is inlined as `now - last_mine_time`. -/
def Miner.update (m : Miner) (now : ℚ) : Miner :=
  if m.alive = false then m
  else if m.mine_rate ≤ now - m.last_mine_time then
    { m with gold := m.gold + m.gold_per_mine, last_mine_time := now }
  else m

/-- miner.rs: `Miner::upgrade_pickaxe`; the returned `Bool` is Rust's
return value, paired with the post-state. -/
def Miner.upgrade_pickaxe (m : Miner) : Bool × Miner :=
  if 4 ≤ m.pickaxe_level ∨ m.gold < m.pickaxe_upgrade_cost then (false, m)
  else
    (true, { m with gold := m.gold - m.pickaxe_upgrade_cost,
                    pickaxe_level := m.pickaxe_level + 1 })

/-- miner.rs: `Miner::upgrade_mine`. -/
def Miner.upgrade_mine (m : Miner) : Bool × Miner :=
  if 4 ≤ m.mine_level ∨ m.gold < m.mine_upgrade_cost then (false, m)
  else
    (true, { m with gold := m.gold - m.mine_upgrade_cost,
                    mine_level := m.mine_level + 1 })

/-- miner.rs: `Miner::contribute_gold`. -/
def Miner.contribute_gold (m : Miner) (amount : ℚ) : Miner :=
  if amount ≤ m.gold then
    { m with gold := m.gold - amount, donated_gold := m.donated_gold + amount }
  else m

/-- miner.rs: `Miner::take_damage` (Rust's decremented `health` is inlined
as `m.health - damage`). -/
def Miner.take_damage (m : Miner) (damage : ℤ) : Miner :=
  if m.health - damage ≤ 0 then { m with health := 0, alive := false }
  else { m with health := m.health - damage }

/-- game_state.rs: `MAX_ROUNDS: usize = 15`. -/
def MAX_ROUNDS : Nat := 15

/-- game_state.rs: `ROUND_DURATION = Duration::from_secs(60)`. -/
def ROUND_DURATION : ℚ := 60

/-- game_state.rs: `enum GameState`. -/
inductive GameState where
  | Playing
  | RoundEnd
  | GameOver
deriving DecidableEq

/-- game_state.rs: `struct MainState`. -/
structure MainState where
  player : Miner
  bots : List Miner
  current_round : Nat
  round_start_time : ℚ
  game_state : GameState
  round_results : Option (List (Nat × ℚ))
deriving DecidableEq

/-- game_state.rs: `MainState::new` — one player and three bots, round 1,
Playing, no stored results. -/
def MainState.new (now : ℚ) : MainState :=
  { player := Miner.new MinerType.Player now
    bots := List.replicate 3 (Miner.new MinerType.Bot now)
    current_round := 1
    round_start_time := now
    game_state := GameState.Playing
    round_results := none }

/-- The random draw made by `bot_make_decision`: a uniform choice in
`{0, 1, 2}`, where a donation carries the drawn fraction. -/
inductive BotDecision where
  | upgradePickaxe
  | upgradeMine
  | contribute (frac : ℚ)

/-- The per-bot body of game_state.rs `MainState::bot_make_decision`,
acting on the chosen bot. -/
def Miner.botDecide (m : Miner) (d : BotDecision) : Miner :=
  if m.alive = false then m
  else
    match d with
    | BotDecision.upgradePickaxe =>
        if m.pickaxe_level < 4 ∧ m.pickaxe_upgrade_cost ≤ m.gold then
          m.upgrade_pickaxe.2
        else m
    | BotDecision.upgradeMine =>
        if m.mine_level < 4 ∧ m.mine_upgrade_cost ≤ m.gold then
          m.upgrade_mine.2
        else m
    | BotDecision.contribute f => m.contribute_gold (m.gold * f)

/-- Replace the element at an index of a list, leaving the list unchanged
when the index is out of range (Rust indexing would panic there; all call
sites stay in range). -/
def updateAt : List Miner → Nat → (Miner → Miner) → List Miner
  | [], _, _ => []
  | b :: rest, 0, f => f b :: rest
  | b :: rest, n + 1, f => b :: updateAt rest n f

/-- game_state.rs: `MainState::bot_make_decision(bot_index)`, with the
random draw passed explicitly. -/
def MainState.bot_make_decision (s : MainState) (i : Nat) (d : BotDecision) :
    MainState :=
  { s with bots := updateAt s.bots i (fun b => b.botDecide d) }

/-- game_state.rs `end_round`: the bot loop
`for (i, bot) in bots.iter().enumerate() { if bot.alive { push (i+1, donated) } }`,
with `i` counting from the first argument. -/
def botEntries : Nat → List Miner → List (Nat × ℚ)
  | _, [] => []
  | i, b :: rest =>
      if b.alive = true then (i + 1, b.donated_gold) :: botEntries (i + 1) rest
      else botEntries (i + 1) rest

/-- game_state.rs `end_round`: the unsorted results list — the player as
entry `(0, donated)` followed by the alive bots. -/
def rawResults (s : MainState) : List (Nat × ℚ) :=
  (0, s.player.donated_gold) :: botEntries 0 s.bots

/-- One step of a stable descending sort on the donated amount: the new
entry is placed before the first entry it weakly exceeds, hence after all
strictly-greater and before all equal entries. -/
def insertEntry (e : Nat × ℚ) : List (Nat × ℚ) → List (Nat × ℚ)
  | [] => [e]
  | f :: rest => if f.2 ≤ e.2 then e :: f :: rest else f :: insertEntry e rest

/-- Stable sort, descending by donated amount. Rust's
`results.sort_by(|a, b| b.1.partial_cmp(&a.1).unwrap())` is a stable sort
under the same total comparator, and a stable sort's output is uniquely
determined by the comparator, so this insertion sort computes the same
list. -/
def sortResults : List (Nat × ℚ) → List (Nat × ℚ)
  | [] => []
  | e :: rest => insertEntry e (sortResults rest)

/-- game_state.rs `end_round`: the sorted results list. -/
def rankResults (s : MainState) : List (Nat × ℚ) :=
  sortResults (rawResults s)

/-- game_state.rs `end_round` damage loop body: entry `(miner_index, _)`
at `position` damages the player when `miner_index == 0`, else
`bots[miner_index - 1]`. -/
def damageAt (s : MainState) (idx : Nat) (dmg : ℤ) : MainState :=
  if idx = 0 then { s with player := s.player.take_damage dmg }
  else { s with bots := updateAt s.bots (idx - 1) (fun b => b.take_damage dmg) }

/-- game_state.rs `end_round` damage loop:
`for (position, (miner_index, _)) in results.iter().enumerate()`. -/
def applyDamages : MainState → Nat → List (Nat × ℚ) → MainState
  | s, _, [] => s
  | s, pos, e :: rest => applyDamages (damageAt s e.1 (pos : ℤ)) (pos + 1) rest

/-- game_state.rs `end_round` before the phase choice: collect and sort
donations, deal positional damage, reset every `donated_gold`, and store
the sorted results for display. -/
def MainState.scored (s : MainState) : MainState :=
  { applyDamages s 0 (rankResults s) with
    player := { (applyDamages s 0 (rankResults s)).player with donated_gold := 0 },
    bots := (applyDamages s 0 (rankResults s)).bots.map
              (fun b : Miner => { b with donated_gold := 0 }),
    round_results := some (rankResults s) }

/-- game_state.rs: `MainState::end_round` — score the round, then pick the
next phase from the post-damage player and the round counter. -/
def MainState.end_round (s : MainState) : MainState :=
  if s.scored.player.alive = false then
    { s.scored with game_state := GameState.GameOver }
  else if MAX_ROUNDS ≤ s.scored.current_round then
    { s.scored with game_state := GameState.GameOver }
  else { s.scored with game_state := GameState.RoundEnd }

/-- game_state.rs: `MainState::start_next_round`. -/
def MainState.start_next_round (s : MainState) (now : ℚ) : MainState :=
  { s with current_round := s.current_round + 1
           round_start_time := now
           game_state := GameState.Playing
           round_results := none }

/-- game_state.rs: `MainState::restart_game`. -/
def MainState.restart_game (_s : MainState) (now : ℚ) : MainState :=
  { player := Miner.new MinerType.Player now
    bots := List.replicate 3 (Miner.new MinerType.Bot now)
    current_round := 1
    round_start_time := now
    game_state := GameState.Playing
    round_results := none }

/-- The accrual half of the `Playing` tick: `player.update` and
`bot.update` for every bot. -/
def MainState.accrued (s : MainState) (now : ℚ) : MainState :=
  { s with player := s.player.update now,
           bots := s.bots.map (fun b => b.update now) }

/-- The `GameState::Playing` body of the per-frame update: accrue passive
income, then `for i in 0..bots.len() { bot_make_decision(i) }`. -/
def MainState.playingStep (s : MainState) (now : ℚ) (ds : Nat → BotDecision) :
    MainState :=
  (List.range (s.accrued now).bots.length).foldl
    (fun st i => st.bot_make_decision i (ds i)) (s.accrued now)

/-- game_state.rs: `EventHandler::update for MainState` — the per-frame
tick. Miners are updated only in the `Playing` phase (the code's comment:
this fixes gold accumulating during the round-end screen); `RoundEnd` and
`GameOver` wait for a click. The wall clock and the bots' random draws are
explicit arguments. -/
def MainState.update (s : MainState) (now : ℚ) (ds : Nat → BotDecision) :
    MainState :=
  match s.game_state with
  | GameState.Playing =>
      if ROUND_DURATION ≤ now - (s.playingStep now ds).round_start_time then
        (s.playingStep now ds).end_round
      else s.playingStep now ds
  | GameState.RoundEnd => s
  | GameState.GameOver => s

/-!  Operation sequences over a single Miner (for the state invariant). -/

/-- An arbitrary command reaching one Miner: passive accrual at some time,
either upgrade attempt, a donation, or round damage. -/
inductive MinerOp where
  | accrue (now : ℚ)
  | upPickaxe
  | upMine
  | contrib (amount : ℚ)
  | damage (n : ℤ)

/-- Run one operation on a Miner. -/
def Miner.applyOp (m : Miner) : MinerOp → Miner
  | MinerOp.accrue now => m.update now
  | MinerOp.upPickaxe => m.upgrade_pickaxe.2
  | MinerOp.upMine => m.upgrade_mine.2
  | MinerOp.contrib a => m.contribute_gold a
  | MinerOp.damage n => m.take_damage n

/-- The callers of `contribute_gold` and `take_damage` in the program pass
non-negative amounts; this records that restriction. -/
def MinerOp.valid : MinerOp → Prop
  | MinerOp.contrib a => 0 ≤ a
  | MinerOp.damage n => 0 ≤ n
  | _ => True

instance : (op : MinerOp) → Decidable op.valid
  | MinerOp.accrue _ => isTrue trivial
  | MinerOp.upPickaxe => isTrue trivial
  | MinerOp.upMine => isTrue trivial
  | MinerOp.contrib a => inferInstanceAs (Decidable (0 ≤ a))
  | MinerOp.damage n => inferInstanceAs (Decidable (0 ≤ n))

/-- The Miner state invariant of the spec. -/
def MinerInv (m : Miner) : Prop :=
  0 ≤ m.gold ∧ m.pickaxe_level ≤ 4 ∧ m.mine_level ≤ 4 ∧ 0 ≤ m.health
    ∧ (m.alive = true ↔ 0 < m.health)

theorem gold_per_mine_nonneg (m : Miner) : 0 ≤ m.gold_per_mine := by
  unfold Miner.gold_per_mine
  rcases m.mine_level with _ | _ | _ | _ | _ | n
  · norm_num
  · norm_num
  · norm_num
  · norm_num
  · norm_num
  · show (0 : ℚ) ≤ 2
    norm_num

theorem minerInv_new (t : MinerType) (now : ℚ) : MinerInv (Miner.new t now) := by
  refine ⟨le_refl 0, ?_, ?_, ?_, ?_⟩ <;> simp [Miner.new, STARTING_HEALTH]

theorem minerInv_step (m : Miner) (op : MinerOp) (hv : op.valid)
    (h : MinerInv m) : MinerInv (m.applyOp op) := by
  obtain ⟨hg, hp, hm, hh, ha⟩ := h
  cases op with
  | accrue now =>
      show MinerInv (m.update now)
      unfold Miner.update
      split
      · exact ⟨hg, hp, hm, hh, ha⟩
      · split
        · exact ⟨add_nonneg hg (gold_per_mine_nonneg m), hp, hm, hh, ha⟩
        · exact ⟨hg, hp, hm, hh, ha⟩
  | upPickaxe =>
      show MinerInv m.upgrade_pickaxe.2
      unfold Miner.upgrade_pickaxe
      split
      · exact ⟨hg, hp, hm, hh, ha⟩
      · rename_i hcond
        push_neg at hcond
        exact ⟨sub_nonneg.mpr hcond.2, by show m.pickaxe_level + 1 ≤ 4; omega,
          hm, hh, ha⟩
  | upMine =>
      show MinerInv m.upgrade_mine.2
      unfold Miner.upgrade_mine
      split
      · exact ⟨hg, hp, hm, hh, ha⟩
      · rename_i hcond
        push_neg at hcond
        exact ⟨sub_nonneg.mpr hcond.2, hp, by show m.mine_level + 1 ≤ 4; omega,
          hh, ha⟩
  | contrib a =>
      show MinerInv (m.contribute_gold a)
      unfold Miner.contribute_gold
      split
      · rename_i hle
        exact ⟨sub_nonneg.mpr hle, hp, hm, hh, ha⟩
      · exact ⟨hg, hp, hm, hh, ha⟩
  | damage n =>
      have hv0 : (0 : ℤ) ≤ n := hv
      show MinerInv (m.take_damage n)
      unfold Miner.take_damage
      split
      · exact ⟨hg, hp, hm, le_refl 0, by simp⟩
      · rename_i hpos
        refine ⟨hg, hp, hm, by show (0 : ℤ) ≤ m.health - n; omega, ?_⟩
        cases hab : m.alive with
        | false =>
            rw [hab] at ha
            simp only [Bool.false_eq_true, false_iff, not_lt] at ha
            omega
        | true =>
            simp only [true_iff]
            omega

/-- C7: starting from a freshly created Miner, any sequence of
accrue / upgrade / contribute (non-negative) / damage (non-negative)
operations keeps currency non-negative, both levels at most 4, health
non-negative, and `alive` equal to `health > 0`. -/
theorem miner_invariant (t : MinerType) (now : ℚ) (ops : List MinerOp)
    (h : ∀ op ∈ ops, op.valid) :
    0 ≤ (ops.foldl Miner.applyOp (Miner.new t now)).gold
  ∧ (ops.foldl Miner.applyOp (Miner.new t now)).pickaxe_level ≤ 4
  ∧ (ops.foldl Miner.applyOp (Miner.new t now)).mine_level ≤ 4
  ∧ 0 ≤ (ops.foldl Miner.applyOp (Miner.new t now)).health
  ∧ ((ops.foldl Miner.applyOp (Miner.new t now)).alive = true
      ↔ 0 < (ops.foldl Miner.applyOp (Miner.new t now)).health) := by
  have main : ∀ (l : List MinerOp) (m : Miner), (∀ op ∈ l, op.valid) →
      MinerInv m → MinerInv (l.foldl Miner.applyOp m) := by
    intro l
    induction l with
    | nil => exact fun m _ hm => hm
    | cons op rest ih =>
        intro m hv hm
        exact ih _ (fun o ho => hv o (List.mem_cons_of_mem _ ho))
          (minerInv_step m op (hv op (List.mem_cons_self _ _)) hm)
  exact main ops _ h (minerInv_new t now)

/-- A sample operation sequence: accrue, donate, get damaged to death,
then attempt an upgrade. -/
def sampleOps : List MinerOp :=
  [MinerOp.accrue 1, MinerOp.contrib 1, MinerOp.damage 12, MinerOp.damage 3,
   MinerOp.upPickaxe]

theorem miner_invariant_witness :
    0 ≤ (sampleOps.foldl Miner.applyOp (Miner.new MinerType.Player 0)).gold
  ∧ (sampleOps.foldl Miner.applyOp (Miner.new MinerType.Player 0)).pickaxe_level ≤ 4
  ∧ (sampleOps.foldl Miner.applyOp (Miner.new MinerType.Player 0)).mine_level ≤ 4
  ∧ 0 ≤ (sampleOps.foldl Miner.applyOp (Miner.new MinerType.Player 0)).health
  ∧ ((sampleOps.foldl Miner.applyOp (Miner.new MinerType.Player 0)).alive = true
      ↔ 0 < (sampleOps.foldl Miner.applyOp (Miner.new MinerType.Player 0)).health) :=
  miner_invariant MinerType.Player 0 sampleOps (by decide)

/-!  Single-operation specifications of the Miner economy. -/

/-- C4: for an alive Miner, one `update` call at a time at least one
mining interval after `last_mine_time` adds exactly one `gold_per_mine`
(however large the elapsed time) and resets `last_mine_time` to `now`;
with less than one interval elapsed it changes nothing; for a dead Miner
it is always a no-op. -/
theorem miner_update_spec (m : Miner) (now : ℚ) :
    (m.alive = true → m.mine_rate ≤ now - m.last_mine_time →
      m.update now = { m with gold := m.gold + m.gold_per_mine,
                              last_mine_time := now })
  ∧ (m.alive = true → now - m.last_mine_time < m.mine_rate →
      m.update now = m)
  ∧ (m.alive = false → m.update now = m) := by
  refine ⟨?_, ?_, ?_⟩
  · intro ha h
    simp [Miner.update, ha, h]
  · intro ha h
    simp [Miner.update, ha, not_le.mpr h]
  · intro ha
    simp [Miner.update, ha]

/-- An alive level-0 Miner last accrued at time 0. -/
def accrueMiner : Miner :=
  { miner_type := MinerType.Player, gold := 0, donated_gold := 0,
    pickaxe_level := 0, mine_level := 0, last_mine_time := 0, health := 10,
    alive := true }

theorem miner_update_spec_witness :
    accrueMiner.alive = true
  ∧ accrueMiner.mine_rate ≤ 10 - accrueMiner.last_mine_time
  ∧ accrueMiner.update 10 = { accrueMiner with gold := 2, last_mine_time := 10 } := by
  refine ⟨rfl, ?_, ?_⟩
  · norm_num [accrueMiner, Miner.mine_rate]
  · rw [(miner_update_spec accrueMiner 10).1 rfl
      (by norm_num [accrueMiner, Miner.mine_rate])]
    norm_num [accrueMiner, Miner.gold_per_mine]

/-- C5: `upgrade_pickaxe` fails and changes nothing at level 4 or with
gold under the cost of the current level; otherwise it deducts exactly
that cost and increments the level; the costs are 200/400/800/1600 for
levels 0–3. -/
theorem upgrade_pickaxe_spec (m : Miner) :
    (m.pickaxe_level = 4 ∨ m.gold < m.pickaxe_upgrade_cost →
      m.upgrade_pickaxe = (false, m))
  ∧ (m.pickaxe_level < 4 → m.pickaxe_upgrade_cost ≤ m.gold →
      m.upgrade_pickaxe =
        (true, { m with gold := m.gold - m.pickaxe_upgrade_cost,
                        pickaxe_level := m.pickaxe_level + 1 }))
  ∧ (m.pickaxe_level = 0 → m.pickaxe_upgrade_cost = 200)
  ∧ (m.pickaxe_level = 1 → m.pickaxe_upgrade_cost = 400)
  ∧ (m.pickaxe_level = 2 → m.pickaxe_upgrade_cost = 800)
  ∧ (m.pickaxe_level = 3 → m.pickaxe_upgrade_cost = 1600) := by
  refine ⟨?_, ?_, ?_, ?_, ?_, ?_⟩
  · rintro (h | h)
    · rw [Miner.upgrade_pickaxe, if_pos (Or.inl (by omega))]
    · rw [Miner.upgrade_pickaxe, if_pos (Or.inr h)]
  · intro h1 h2
    rw [Miner.upgrade_pickaxe, if_neg (by push_neg; exact ⟨by omega, h2⟩)]
  · intro h
    simp [Miner.pickaxe_upgrade_cost, h]
  · intro h
    simp [Miner.pickaxe_upgrade_cost, h]
  · intro h
    simp [Miner.pickaxe_upgrade_cost, h]
  · intro h
    simp [Miner.pickaxe_upgrade_cost, h]

/-- A level-0 Miner holding 199 gold, one short of the first pickaxe. -/
def poorMiner : Miner :=
  { miner_type := MinerType.Player, gold := 199, donated_gold := 0,
    pickaxe_level := 0, mine_level := 0, last_mine_time := 0, health := 10,
    alive := true }

theorem upgrade_pickaxe_spec_witness :
    poorMiner.gold = 199 ∧ poorMiner.pickaxe_level = 0
  ∧ poorMiner.upgrade_pickaxe = (false, poorMiner) :=
  ⟨rfl, rfl, (upgrade_pickaxe_spec poorMiner).1
    (Or.inr (by norm_num [poorMiner, Miner.pickaxe_upgrade_cost]))⟩

/-- C6: `contribute_gold` is a no-op when the amount exceeds the balance;
otherwise it moves exactly the amount from `gold` to `donated_gold`. -/
theorem contribute_spec (m : Miner) (amount : ℚ) :
    (m.gold < amount → m.contribute_gold amount = m)
  ∧ (amount ≤ m.gold →
      m.contribute_gold amount =
        { m with gold := m.gold - amount,
                 donated_gold := m.donated_gold + amount }) := by
  constructor
  · intro h
    simp [Miner.contribute_gold, not_le.mpr h]
  · intro h
    simp [Miner.contribute_gold, h]

/-- A Miner holding 50 gold with 7 already donated. -/
def donorMiner : Miner :=
  { miner_type := MinerType.Player, gold := 50, donated_gold := 7,
    pickaxe_level := 0, mine_level := 0, last_mine_time := 0, health := 10,
    alive := true }

theorem contribute_spec_witness :
    donorMiner.contribute_gold 51 = donorMiner
  ∧ donorMiner.contribute_gold 50 =
      { donorMiner with gold := 0, donated_gold := 57 } := by
  refine ⟨(contribute_spec donorMiner 51).1 (by norm_num [donorMiner]), ?_⟩
  rw [(contribute_spec donorMiner 50).2 (by norm_num [donorMiner])]
  norm_num [donorMiner]

/-- C10: a negative donation amount passes the `amount <= gold` guard of
`contribute_gold` whenever gold is non-negative, minting `|amount|` gold
and driving `donated_gold` down by `|amount|`. -/
theorem contribute_negative (m : Miner) (a : ℚ) (h1 : a < 0)
    (h2 : 0 ≤ m.gold) :
    m.contribute_gold a =
      { m with gold := m.gold + |a|, donated_gold := m.donated_gold - |a| } := by
  have hle : a ≤ m.gold := le_trans h1.le h2
  rw [Miner.contribute_gold, if_pos hle, abs_of_neg h1]
  congr 1
  · ring
  · ring

theorem contribute_negative_witness :
    donorMiner.contribute_gold (-3) =
      { donorMiner with gold := 53, donated_gold := 4 } := by
  rw [contribute_negative donorMiner (-3) (by norm_num)
    (by norm_num [donorMiner])]
  norm_num [donorMiner]

/-!  MainState commands. -/

/-- C8: `restart_game`, from any state, rebuilds the match: round 1,
phase Playing, round clock reset to now, no stored results, a fresh
player and exactly three fresh bots, where a fresh Miner has health 10,
no gold, no donation, both levels 0, and is alive. -/
theorem restart_spec (s : MainState) (now : ℚ) :
    (s.restart_game now).current_round = 1
  ∧ (s.restart_game now).game_state = GameState.Playing
  ∧ (s.restart_game now).round_start_time = now
  ∧ (s.restart_game now).round_results = none
  ∧ (s.restart_game now).player = Miner.new MinerType.Player now
  ∧ (s.restart_game now).bots = List.replicate 3 (Miner.new MinerType.Bot now)
  ∧ (∀ t : MinerType,
      (Miner.new t now).health = 10 ∧ (Miner.new t now).gold = 0
    ∧ (Miner.new t now).donated_gold = 0 ∧ (Miner.new t now).pickaxe_level = 0
    ∧ (Miner.new t now).mine_level = 0 ∧ (Miner.new t now).alive = true) :=
  ⟨rfl, rfl, rfl, rfl, rfl, rfl, fun _ => ⟨rfl, rfl, rfl, rfl, rfl, rfl⟩⟩

/-- C1: the per-frame `update` is a complete no-op outside the `Playing`
phase — in particular no Miner's gold, health, donation tally, levels, or
alive flag can change during `RoundEnd` or `GameOver`. -/
theorem update_frozen (s : MainState) (now : ℚ) (ds : Nat → BotDecision)
    (h : s.game_state ≠ GameState.Playing) : s.update now ds = s := by
  rcases s with ⟨p, b, cr, rst, gs, rr⟩
  cases gs
  · exact absurd rfl h
  · rfl
  · rfl

/-- A state sitting on the round-end screen. -/
def frozenState : MainState :=
  { MainState.new 0 with game_state := GameState.RoundEnd }

theorem update_frozen_witness :
    frozenState.game_state = GameState.RoundEnd
  ∧ frozenState.update 99 (fun _ => BotDecision.upgradePickaxe) = frozenState :=
  ⟨rfl, update_frozen frozenState 99 (fun _ => BotDecision.upgradePickaxe)
          (by decide)⟩

/-!  Properties of the stable descending sort. -/

theorem mem_insertEntry (e x : Nat × ℚ) (l : List (Nat × ℚ)) :
    x ∈ insertEntry e l ↔ x = e ∨ x ∈ l := by
  induction l with
  | nil => simp [insertEntry]
  | cons f rest ih =>
      unfold insertEntry
      split
      · simp [List.mem_cons]
      · simp only [List.mem_cons, ih]
        tauto

theorem insertEntry_perm (e : Nat × ℚ) (l : List (Nat × ℚ)) :
    (insertEntry e l).Perm (e :: l) := by
  induction l with
  | nil => exact List.Perm.refl _
  | cons f rest ih =>
      unfold insertEntry
      split
      · exact List.Perm.refl _
      · exact (List.Perm.cons f ih).trans (List.Perm.swap e f rest)

theorem sortResults_perm (l : List (Nat × ℚ)) : (sortResults l).Perm l := by
  induction l with
  | nil => exact List.Perm.refl _
  | cons e rest ih =>
      unfold sortResults
      exact (insertEntry_perm e (sortResults rest)).trans (List.Perm.cons e ih)

theorem pairwise_insertEntry (e : Nat × ℚ) (l : List (Nat × ℚ))
    (h : l.Pairwise (fun a b => b.2 ≤ a.2)) :
    (insertEntry e l).Pairwise (fun a b => b.2 ≤ a.2) := by
  induction l with
  | nil => simp [insertEntry]
  | cons f rest ih =>
      obtain ⟨hf, hrest⟩ := List.pairwise_cons.mp h
      unfold insertEntry
      split
      · rename_i hle
        refine List.pairwise_cons.mpr ⟨?_, h⟩
        intro x hx
        rcases List.mem_cons.mp hx with rfl | hx
        · exact hle
        · exact le_trans (hf x hx) hle
      · rename_i hgt
        push_neg at hgt
        refine List.pairwise_cons.mpr ⟨?_, ih hrest⟩
        intro x hx
        rcases (mem_insertEntry e x rest).mp hx with rfl | hx
        · exact hgt.le
        · exact hf x hx

theorem sortResults_pairwise (l : List (Nat × ℚ)) :
    (sortResults l).Pairwise (fun a b => b.2 ≤ a.2) := by
  induction l with
  | nil => simp [sortResults]
  | cons e rest ih => exact pairwise_insertEntry e _ ih

/-!  Index lemmas for the in-place bot update. -/

theorem updateAt_getElem_self (l : List Miner) (n : Nat) (f : Miner → Miner) :
    (updateAt l n f)[n]? = (l[n]?).map f := by
  induction l generalizing n with
  | nil => simp [updateAt]
  | cons b rest ih =>
      cases n with
      | zero => simp [updateAt]
      | succ n => simpa [updateAt] using ih n

theorem updateAt_getElem_ne (l : List Miner) (n j : Nat) (f : Miner → Miner)
    (h : n ≠ j) : (updateAt l n f)[j]? = l[j]? := by
  induction l generalizing n j with
  | nil => simp [updateAt]
  | cons b rest ih =>
      cases n with
      | zero =>
          cases j with
          | zero => exact absurd rfl h
          | succ j => simp [updateAt]
      | succ n =>
          cases j with
          | zero => simp [updateAt]
          | succ j => simpa [updateAt] using ih n j (by omega)

/-!  The damage loop of `end_round`. -/

theorem damageAt_fields (s : MainState) (idx : Nat) (dmg : ℤ) :
    (damageAt s idx dmg).current_round = s.current_round
  ∧ (damageAt s idx dmg).round_start_time = s.round_start_time
  ∧ (damageAt s idx dmg).game_state = s.game_state
  ∧ (damageAt s idx dmg).round_results = s.round_results := by
  unfold damageAt
  split <;> exact ⟨rfl, rfl, rfl, rfl⟩

theorem applyDamages_fields (l : List (Nat × ℚ)) :
    ∀ (s : MainState) (pos : Nat),
    (applyDamages s pos l).current_round = s.current_round
  ∧ (applyDamages s pos l).round_start_time = s.round_start_time
  ∧ (applyDamages s pos l).game_state = s.game_state
  ∧ (applyDamages s pos l).round_results = s.round_results := by
  induction l with
  | nil => exact fun s pos => ⟨rfl, rfl, rfl, rfl⟩
  | cons e rest ih =>
      intro s pos
      have hd := damageAt_fields s e.1 (pos : ℤ)
      have ha := ih (damageAt s e.1 (pos : ℤ)) (pos + 1)
      exact ⟨ha.1.trans hd.1, ha.2.1.trans hd.2.1, ha.2.2.1.trans hd.2.2.1,
        ha.2.2.2.trans hd.2.2.2⟩

theorem damageAt_player_ne (s : MainState) (idx : Nat) (dmg : ℤ)
    (h : idx ≠ 0) : (damageAt s idx dmg).player = s.player := by
  unfold damageAt
  rw [if_neg h]

theorem damageAt_player_eq (s : MainState) (dmg : ℤ) :
    (damageAt s 0 dmg).player = s.player.take_damage dmg := by
  unfold damageAt
  rw [if_pos rfl]

theorem damageAt_bots_ne (s : MainState) (idx : Nat) (dmg : ℤ) (j : Nat)
    (h : idx ≠ j + 1) : (damageAt s idx dmg).bots[j]? = s.bots[j]? := by
  unfold damageAt
  split
  · rfl
  · rename_i h0
    exact updateAt_getElem_ne _ _ _ _ (by omega)

theorem damageAt_bots_eq (s : MainState) (j : Nat) (dmg : ℤ) :
    (damageAt s (j + 1) dmg).bots[j]? =
      (s.bots[j]?).map (fun b => b.take_damage dmg) := by
  unfold damageAt
  rw [if_neg (by omega)]
  exact updateAt_getElem_self s.bots j _

theorem applyDamages_player_notmem (l : List (Nat × ℚ)) :
    ∀ (s : MainState) (pos : Nat), (∀ e ∈ l, e.1 ≠ 0) →
    (applyDamages s pos l).player = s.player := by
  induction l with
  | nil => exact fun s pos _ => rfl
  | cons e rest ih =>
      intro s pos h
      calc (applyDamages s pos (e :: rest)).player
          = (applyDamages (damageAt s e.1 (pos : ℤ)) (pos + 1) rest).player := rfl
        _ = (damageAt s e.1 (pos : ℤ)).player :=
            ih _ _ (fun x hx => h x (List.mem_cons_of_mem _ hx))
        _ = s.player := damageAt_player_ne s e.1 _ (h e (List.mem_cons_self _ _))

theorem applyDamages_bots_notmem (l : List (Nat × ℚ)) :
    ∀ (s : MainState) (pos j : Nat), (∀ e ∈ l, e.1 ≠ j + 1) →
    (applyDamages s pos l).bots[j]? = s.bots[j]? := by
  induction l with
  | nil => exact fun s pos j _ => rfl
  | cons e rest ih =>
      intro s pos j h
      calc (applyDamages s pos (e :: rest)).bots[j]?
          = (applyDamages (damageAt s e.1 (pos : ℤ)) (pos + 1) rest).bots[j]? := rfl
        _ = (damageAt s e.1 (pos : ℤ)).bots[j]? :=
            ih _ _ _ (fun x hx => h x (List.mem_cons_of_mem _ hx))
        _ = s.bots[j]? := damageAt_bots_ne s e.1 _ j (h e (List.mem_cons_self _ _))

theorem applyDamages_player_get (l : List (Nat × ℚ)) :
    ∀ (s : MainState) (pos k : Nat) (d : ℚ),
    l[k]? = some (0, d) → (l.map Prod.fst).Nodup →
    (applyDamages s pos l).player = s.player.take_damage ((pos + k : Nat) : ℤ) := by
  induction l with
  | nil =>
      intro s pos k d hk _
      simp at hk
  | cons e rest ih =>
      intro s pos k d hk hnd
      rw [List.map_cons] at hnd
      have hnd' := List.nodup_cons.mp hnd
      cases k with
      | zero =>
          have he : e = (0, d) := by simpa using hk
          subst he
          have hrest : ∀ x ∈ rest, x.1 ≠ 0 := by
            intro x hx hx0
            have hmem : x.1 ∈ List.map Prod.fst rest :=
              List.mem_map_of_mem Prod.fst hx
            rw [hx0] at hmem
            exact hnd'.1 hmem
          calc (applyDamages s pos ((0, d) :: rest)).player
              = (applyDamages (damageAt s 0 (pos : ℤ)) (pos + 1) rest).player := rfl
            _ = (damageAt s 0 (pos : ℤ)).player :=
                applyDamages_player_notmem rest _ _ hrest
            _ = s.player.take_damage ((pos + 0 : Nat) : ℤ) := by
                rw [damageAt_player_eq]
                norm_num
      | succ k =>
          have hk' : rest[k]? = some (0, d) := by simpa using hk
          have h0mem : (0 : Nat) ∈ rest.map Prod.fst :=
            List.mem_map_of_mem Prod.fst (List.getElem?_mem hk')
          have he1 : e.1 ≠ 0 := fun h0 => hnd'.1 (h0 ▸ h0mem)
          calc (applyDamages s pos (e :: rest)).player
              = (applyDamages (damageAt s e.1 (pos : ℤ)) (pos + 1) rest).player := rfl
            _ = (damageAt s e.1 (pos : ℤ)).player.take_damage (((pos + 1) + k : Nat) : ℤ) :=
                ih _ _ _ _ hk' hnd'.2
            _ = s.player.take_damage ((pos + (k + 1) : Nat) : ℤ) := by
                rw [damageAt_player_ne s e.1 _ he1]
                have harith : pos + 1 + k = pos + (k + 1) := by omega
                rw [harith]

theorem applyDamages_bots_get (l : List (Nat × ℚ)) :
    ∀ (s : MainState) (pos k j : Nat) (d : ℚ),
    l[k]? = some (j + 1, d) → (l.map Prod.fst).Nodup →
    (applyDamages s pos l).bots[j]? =
      (s.bots[j]?).map (fun b => b.take_damage ((pos + k : Nat) : ℤ)) := by
  induction l with
  | nil =>
      intro s pos k j d hk _
      simp at hk
  | cons e rest ih =>
      intro s pos k j d hk hnd
      rw [List.map_cons] at hnd
      have hnd' := List.nodup_cons.mp hnd
      cases k with
      | zero =>
          have he : e = (j + 1, d) := by simpa using hk
          subst he
          have hrest : ∀ x ∈ rest, x.1 ≠ j + 1 := by
            intro x hx hx0
            have hmem : x.1 ∈ List.map Prod.fst rest :=
              List.mem_map_of_mem Prod.fst hx
            rw [hx0] at hmem
            exact hnd'.1 hmem
          calc (applyDamages s pos ((j + 1, d) :: rest)).bots[j]?
              = (applyDamages (damageAt s (j + 1) (pos : ℤ)) (pos + 1) rest).bots[j]? := rfl
            _ = (damageAt s (j + 1) (pos : ℤ)).bots[j]? :=
                applyDamages_bots_notmem rest _ _ _ hrest
            _ = (s.bots[j]?).map (fun b => b.take_damage ((pos + 0 : Nat) : ℤ)) := by
                rw [damageAt_bots_eq]
                norm_num
      | succ k =>
          have hk' : rest[k]? = some (j + 1, d) := by simpa using hk
          have hjmem : (j + 1 : Nat) ∈ rest.map Prod.fst :=
            List.mem_map_of_mem Prod.fst (List.getElem?_mem hk')
          have he1 : e.1 ≠ j + 1 := fun h0 => hnd'.1 (h0 ▸ hjmem)
          calc (applyDamages s pos (e :: rest)).bots[j]?
              = (applyDamages (damageAt s e.1 (pos : ℤ)) (pos + 1) rest).bots[j]? := rfl
            _ = ((damageAt s e.1 (pos : ℤ)).bots[j]?).map
                  (fun b => b.take_damage (((pos + 1) + k : Nat) : ℤ)) :=
                ih _ _ _ _ _ hk' hnd'.2
            _ = (s.bots[j]?).map (fun b => b.take_damage ((pos + (k + 1) : Nat) : ℤ)) := by
                rw [damageAt_bots_ne s e.1 _ j he1]
                have harith : pos + 1 + k = pos + (k + 1) := by omega
                rw [harith]

/-!  The unsorted results list. -/

theorem botEntries_fst_bounds (l : List Miner) :
    ∀ (i : Nat) (e : Nat × ℚ), e ∈ botEntries i l →
    i + 1 ≤ e.1 ∧ e.1 ≤ i + l.length := by
  induction l with
  | nil =>
      intro i e he
      simp [botEntries] at he
  | cons b rest ih =>
      intro i e he
      unfold botEntries at he
      by_cases hb : b.alive = true
      · rw [if_pos hb] at he
        rcases List.mem_cons.mp he with rfl | he
        · refine ⟨le_refl _, ?_⟩
          show i + 1 ≤ i + (rest.length + 1)
          omega
        · obtain ⟨h1, h2⟩ := ih (i + 1) e he
          simp only [List.length_cons]
          omega
      · rw [if_neg hb] at he
        obtain ⟨h1, h2⟩ := ih (i + 1) e he
        simp only [List.length_cons]
        omega

theorem botEntries_fst_nodup (l : List Miner) :
    ∀ i : Nat, ((botEntries i l).map Prod.fst).Nodup := by
  induction l with
  | nil =>
      intro i
      simp [botEntries]
  | cons b rest ih =>
      intro i
      unfold botEntries
      by_cases hb : b.alive = true
      · rw [if_pos hb]
        rw [List.map_cons]
        refine List.nodup_cons.mpr ⟨?_, ih (i + 1)⟩
        intro hmem
        rcases List.mem_map.mp hmem with ⟨e, he, hfe⟩
        have := (botEntries_fst_bounds rest (i + 1) e he).1
        omega
      · rw [if_neg hb]
        exact ih (i + 1)

theorem mem_botEntries (l : List Miner) :
    ∀ (i n : Nat) (d : ℚ),
    ((n, d) ∈ botEntries i l ↔
      ∃ j b, l[j]? = some b ∧ b.alive = true ∧ n = i + j + 1
        ∧ d = b.donated_gold) := by
  induction l with
  | nil =>
      intro i n d
      simp [botEntries]
  | cons b rest ih =>
      intro i n d
      unfold botEntries
      by_cases hb : b.alive = true
      · rw [if_pos hb]
        constructor
        · intro hmem
          rcases List.mem_cons.mp hmem with heq | hmem
          · cases heq
            exact ⟨0, b, by simp, hb, by omega, rfl⟩
          · rcases (ih (i + 1) n d).mp hmem with ⟨j, b2, hj, hb2, hn, hd⟩
            exact ⟨j + 1, b2, by simpa using hj, hb2, by omega, hd⟩
        · rintro ⟨j, b2, hj, hb2, hn, hd⟩
          cases j with
          | zero =>
              have hbb : b = b2 := by simpa using hj
              subst hbb
              apply List.mem_cons.mpr
              left
              rw [Prod.mk.injEq]
              exact ⟨by omega, hd⟩
          | succ j =>
              have hj2 : rest[j]? = some b2 := by simpa using hj
              apply List.mem_cons.mpr
              right
              exact (ih (i + 1) n d).mpr ⟨j, b2, hj2, hb2, by omega, hd⟩
      · rw [if_neg hb]
        rw [ih (i + 1) n d]
        constructor
        · rintro ⟨j, b2, hj, hb2, hn, hd⟩
          exact ⟨j + 1, b2, by simpa using hj, hb2, by omega, hd⟩
        · rintro ⟨j, b2, hj, hb2, hn, hd⟩
          cases j with
          | zero =>
              have hbb : b = b2 := by simpa using hj
              subst hbb
              exact absurd hb2 hb
          | succ j =>
              have hj2 : rest[j]? = some b2 := by simpa using hj
              exact ⟨j, b2, hj2, hb2, by omega, hd⟩

theorem rawResults_fst_nodup (s : MainState) :
    ((rawResults s).map Prod.fst).Nodup := by
  unfold rawResults
  rw [List.map_cons]
  refine List.nodup_cons.mpr ⟨?_, botEntries_fst_nodup s.bots 0⟩
  intro hmem
  rcases List.mem_map.mp hmem with ⟨e, he, hfe⟩
  have := (botEntries_fst_bounds s.bots 0 e he).1
  omega

/-!  The sorted results list. -/

theorem rankResults_perm (s : MainState) :
    (rankResults s).Perm (rawResults s) :=
  sortResults_perm (rawResults s)

theorem rankResults_pairwise (s : MainState) :
    (rankResults s).Pairwise (fun a b => b.2 ≤ a.2) :=
  sortResults_pairwise (rawResults s)

theorem rankResults_fst_nodup (s : MainState) :
    ((rankResults s).map Prod.fst).Nodup :=
  (((rankResults_perm s).map Prod.fst).symm).nodup (rawResults_fst_nodup s)

/-!  Structure of `scored` and `end_round`. -/

theorem scored_results (s : MainState) :
    s.scored.round_results = some (rankResults s) := rfl

theorem scored_current_round (s : MainState) :
    s.scored.current_round = s.current_round :=
  (applyDamages_fields (rankResults s) s 0).1

theorem scored_round_start (s : MainState) :
    s.scored.round_start_time = s.round_start_time :=
  (applyDamages_fields (rankResults s) s 0).2.1

theorem end_round_player (s : MainState) :
    s.end_round.player = s.scored.player := by
  unfold MainState.end_round
  split
  · rfl
  · split
    · rfl
    · rfl

theorem end_round_bots (s : MainState) :
    s.end_round.bots = s.scored.bots := by
  unfold MainState.end_round
  split
  · rfl
  · split
    · rfl
    · rfl

theorem end_round_results (s : MainState) :
    s.end_round.round_results = some (rankResults s) := by
  unfold MainState.end_round
  split
  · exact scored_results s
  · split
    · exact scored_results s
    · exact scored_results s

theorem end_round_current_round (s : MainState) :
    s.end_round.current_round = s.current_round := by
  unfold MainState.end_round
  split
  · exact scored_current_round s
  · split
    · exact scored_current_round s
    · exact scored_current_round s

theorem end_round_game_state (s : MainState) :
    s.end_round.game_state =
      if s.scored.player.alive = false then GameState.GameOver
      else if MAX_ROUNDS ≤ s.current_round then GameState.GameOver
      else GameState.RoundEnd := by
  unfold MainState.end_round
  by_cases h1 : s.scored.player.alive = false
  · rw [if_pos h1, if_pos h1]
  · rw [if_neg h1, if_neg h1]
    by_cases h2 : MAX_ROUNDS ≤ s.scored.current_round
    · rw [if_pos h2, if_pos (by rw [← scored_current_round s]; exact h2)]
    · rw [if_neg h2, if_neg (by rw [← scored_current_round s]; exact h2)]

theorem end_round_not_playing (s : MainState) :
    s.end_round.game_state ≠ GameState.Playing := by
  rw [end_round_game_state]
  split
  · simp
  · split
    · simp
    · simp

/-- C2: end-of-round scoring. The stored list pairs the player (index 0)
with exactly the alive bots (index j+1 for bot j), sorted descending by
donation; the entry at 0-based position k takes k damage through
`take_damage`; a dead bot is absent and keeps its health; and every
entity's `donated_gold` is reset to 0. -/
theorem end_round_spec (s : MainState) :
    s.end_round.round_results = some (rankResults s)
  ∧ (rankResults s).Perm ((0, s.player.donated_gold) :: botEntries 0 s.bots)
  ∧ (rankResults s).Pairwise (fun a b => b.2 ≤ a.2)
  ∧ (∀ (n : Nat) (d : ℚ), (n, d) ∈ rankResults s →
      (n = 0 ∧ d = s.player.donated_gold) ∨
      (∃ j b, s.bots[j]? = some b ∧ b.alive = true ∧ n = j + 1
        ∧ d = b.donated_gold))
  ∧ (∀ (j : Nat) (b : Miner), s.bots[j]? = some b → b.alive = true →
      (j + 1, b.donated_gold) ∈ rankResults s)
  ∧ (0, s.player.donated_gold) ∈ rankResults s
  ∧ s.end_round.player.donated_gold = 0
  ∧ (∀ b ∈ s.end_round.bots, b.donated_gold = 0)
  ∧ (∀ (k : Nat) (d : ℚ), (rankResults s)[k]? = some (0, d) →
      s.end_round.player = { s.player.take_damage (k : ℤ) with donated_gold := 0 })
  ∧ (∀ (k j : Nat) (d : ℚ), (rankResults s)[k]? = some (j + 1, d) →
      s.end_round.bots[j]? =
        (s.bots[j]?).map (fun b => { b.take_damage (k : ℤ) with donated_gold := 0 }))
  ∧ (∀ (j : Nat) (b : Miner), s.bots[j]? = some b → b.alive = false →
      s.end_round.bots[j]? = some { b with donated_gold := 0 }) := by
  have hscored_bots : s.scored.bots =
      (applyDamages s 0 (rankResults s)).bots.map
        (fun b : Miner => { b with donated_gold := 0 }) := rfl
  refine ⟨end_round_results s, rankResults_perm s, rankResults_pairwise s,
    ?_, ?_, ?_, ?_, ?_, ?_, ?_, ?_⟩
  · intro n d hmem
    have hraw : (n, d) ∈ rawResults s := (rankResults_perm s).subset hmem
    rcases List.mem_cons.mp hraw with heq | hbe
    · cases heq
      exact Or.inl ⟨rfl, rfl⟩
    · right
      rcases (mem_botEntries s.bots 0 n d).mp hbe with ⟨j, b, hj, hb, hn, hd⟩
      exact ⟨j, b, hj, hb, by omega, hd⟩
  · intro j b hj hb
    apply (rankResults_perm s).symm.subset
    apply List.mem_cons.mpr
    right
    exact (mem_botEntries s.bots 0 (j + 1) b.donated_gold).mpr
      ⟨j, b, hj, hb, by omega, rfl⟩
  · exact (rankResults_perm s).symm.subset (List.mem_cons_self _ _)
  · rw [end_round_player]
    rfl
  · intro b hbmem
    rw [end_round_bots, hscored_bots] at hbmem
    rcases List.mem_map.mp hbmem with ⟨b0, hb0, heq⟩
    rw [← heq]
  · intro k d hk
    have h1 : (applyDamages s 0 (rankResults s)).player =
        s.player.take_damage ((0 + k : Nat) : ℤ) :=
      applyDamages_player_get (rankResults s) s 0 k d hk (rankResults_fst_nodup s)
    calc s.end_round.player
        = { (applyDamages s 0 (rankResults s)).player with donated_gold := 0 } := by
          rw [end_round_player]
          rfl
      _ = { s.player.take_damage ((0 + k : Nat) : ℤ) with donated_gold := 0 } := by
          rw [h1]
      _ = { s.player.take_damage (k : ℤ) with donated_gold := 0 } := by
          norm_num
  · intro k j d hk
    have h1 : (applyDamages s 0 (rankResults s)).bots[j]? =
        (s.bots[j]?).map (fun b => b.take_damage ((0 + k : Nat) : ℤ)) :=
      applyDamages_bots_get (rankResults s) s 0 k j d hk (rankResults_fst_nodup s)
    calc s.end_round.bots[j]?
        = ((applyDamages s 0 (rankResults s)).bots[j]?).map
            (fun b : Miner => { b with donated_gold := 0 }) := by
          rw [end_round_bots, hscored_bots, List.getElem?_map]
      _ = ((s.bots[j]?).map (fun b => b.take_damage ((0 + k : Nat) : ℤ))).map
            (fun b : Miner => { b with donated_gold := 0 }) := by
          rw [h1]
      _ = (s.bots[j]?).map
            (fun b => { b.take_damage (k : ℤ) with donated_gold := 0 }) := by
          cases s.bots[j]? <;> simp
  · intro j b hj hb
    have hnot : ∀ e ∈ rankResults s, e.1 ≠ j + 1 := by
      intro e he h1
      obtain ⟨n, d⟩ := e
      have hn : n = j + 1 := h1
      subst hn
      have hraw : (j + 1, d) ∈ rawResults s := (rankResults_perm s).subset he
      rcases List.mem_cons.mp hraw with heq | hbe
      · have : j + 1 = 0 := congrArg Prod.fst heq
        omega
      · rcases (mem_botEntries s.bots 0 (j + 1) d).mp hbe with
          ⟨j2, b2, hj2, hb2, hn2, hd2⟩
        have hjj : j2 = j := by omega
        subst hjj
        rw [hj] at hj2
        have : b = b2 := Option.some.inj hj2
        subst this
        rw [hb2] at hb
        simp at hb
    have h2 := applyDamages_bots_notmem (rankResults s) s 0 j hnot
    calc s.end_round.bots[j]?
        = ((applyDamages s 0 (rankResults s)).bots[j]?).map
            (fun b : Miner => { b with donated_gold := 0 }) := by
          rw [end_round_bots, hscored_bots, List.getElem?_map]
      _ = (s.bots[j]?).map (fun b : Miner => { b with donated_gold := 0 }) := by
          rw [h2]
      _ = some { b with donated_gold := 0 } := by
          rw [hj]
          rfl

/-- The spec's concrete scoring scenario: player donated 100, bot1
donated 50, bot2 donated 200, bot3 dead. -/
def scenario : MainState :=
  { player := { miner_type := MinerType.Player, gold := 0, donated_gold := 100,
                pickaxe_level := 0, mine_level := 0, last_mine_time := 0,
                health := 10, alive := true }
    bots := [
      { miner_type := MinerType.Bot, gold := 0, donated_gold := 50,
        pickaxe_level := 0, mine_level := 0, last_mine_time := 0,
        health := 10, alive := true },
      { miner_type := MinerType.Bot, gold := 0, donated_gold := 200,
        pickaxe_level := 0, mine_level := 0, last_mine_time := 0,
        health := 10, alive := true },
      { miner_type := MinerType.Bot, gold := 0, donated_gold := 0,
        pickaxe_level := 0, mine_level := 0, last_mine_time := 0,
        health := 0, alive := false } ]
    current_round := 1
    round_start_time := 0
    game_state := GameState.Playing
    round_results := none }

theorem end_round_spec_witness :
    scenario.end_round.round_results = some [(2, 200), (0, 100), (1, 50)]
  ∧ scenario.end_round.player.health = 9
  ∧ scenario.end_round.bots.map Miner.health = [8, 10, 0]
  ∧ scenario.end_round.player.donated_gold = 0
  ∧ scenario.end_round.bots.map Miner.donated_gold = [0, 0, 0] := by
  have h := (end_round_spec scenario).1
  have hrank : rankResults scenario = [(2, 200), (0, 100), (1, 50)] := by
    norm_num [rankResults, rawResults, botEntries, sortResults, insertEntry,
      scenario]
  refine ⟨by rw [h, hrank], ?_, ?_, ?_, ?_⟩ <;>
    norm_num [MainState.end_round, MainState.scored, hrank, applyDamages,
      damageAt, updateAt, Miner.take_damage, MAX_ROUNDS, scenario]

/-!  The per-frame tick. -/

theorem foldl_bmd_fields (ds : Nat → BotDecision) (l : List Nat) :
    ∀ st : MainState,
    (l.foldl (fun t i => t.bot_make_decision i (ds i)) st).current_round
        = st.current_round
  ∧ (l.foldl (fun t i => t.bot_make_decision i (ds i)) st).round_start_time
        = st.round_start_time
  ∧ (l.foldl (fun t i => t.bot_make_decision i (ds i)) st).game_state
        = st.game_state
  ∧ (l.foldl (fun t i => t.bot_make_decision i (ds i)) st).round_results
        = st.round_results
  ∧ (l.foldl (fun t i => t.bot_make_decision i (ds i)) st).player
        = st.player := by
  induction l with
  | nil => exact fun st => ⟨rfl, rfl, rfl, rfl, rfl⟩
  | cons i rest ih => exact fun st => ih (st.bot_make_decision i (ds i))

theorem playingStep_fields (s : MainState) (now : ℚ) (ds : Nat → BotDecision) :
    (s.playingStep now ds).current_round = s.current_round
  ∧ (s.playingStep now ds).round_start_time = s.round_start_time
  ∧ (s.playingStep now ds).game_state = s.game_state
  ∧ (s.playingStep now ds).round_results = s.round_results := by
  have h := foldl_bmd_fields ds (List.range (s.accrued now).bots.length)
    (s.accrued now)
  exact ⟨h.1, h.2.1, h.2.2.1, h.2.2.2.1⟩

theorem update_playing_end (s : MainState) (now : ℚ) (ds : Nat → BotDecision)
    (h1 : s.game_state = GameState.Playing)
    (h2 : ROUND_DURATION ≤ now - s.round_start_time) :
    s.update now ds = (s.playingStep now ds).end_round := by
  have hrst := (playingStep_fields s now ds).2.1
  unfold MainState.update
  rw [h1]
  dsimp only
  rw [hrst, if_pos h2]

theorem update_playing_noend (s : MainState) (now : ℚ) (ds : Nat → BotDecision)
    (h1 : s.game_state = GameState.Playing)
    (h2 : ¬ ROUND_DURATION ≤ now - s.round_start_time) :
    s.update now ds = s.playingStep now ds := by
  have hrst := (playingStep_fields s now ds).2.1
  unfold MainState.update
  rw [h1]
  dsimp only
  rw [hrst, if_neg h2]

/-- C3: when a Playing state's round clock has elapsed, the tick runs
end-of-round scoring and the resulting phase is GameOver when the player
(post-damage) is not alive, else GameOver when the round counter has
reached MAX_ROUNDS (15), else RoundEnd — never anything else. -/
theorem round_end_transition (s : MainState) (now : ℚ) (ds : Nat → BotDecision)
    (h1 : s.game_state = GameState.Playing)
    (h2 : ROUND_DURATION ≤ now - s.round_start_time) :
    (s.update now ds).game_state =
      if (s.update now ds).player.alive = false then GameState.GameOver
      else if MAX_ROUNDS ≤ s.current_round then GameState.GameOver
      else GameState.RoundEnd := by
  rw [update_playing_end s now ds h1 h2]
  rw [end_round_game_state, end_round_player]
  rw [(playingStep_fields s now ds).1]

theorem round_end_transition_witness :
    ((MainState.new 0).update 60 (fun _ => BotDecision.upgradePickaxe)).game_state
      = GameState.RoundEnd := by
  rw [round_end_transition (MainState.new 0) 60
    (fun _ => BotDecision.upgradePickaxe) rfl
    (by norm_num [MainState.new, ROUND_DURATION])]
  norm_num [MainState.update, MainState.playingStep, MainState.accrued,
    MainState.bot_make_decision, Miner.botDecide, Miner.update, Miner.mine_rate,
    Miner.gold_per_mine, Miner.pickaxe_upgrade_cost, MainState.end_round,
    MainState.scored, rankResults, rawResults, botEntries, sortResults,
    insertEntry, applyDamages, damageAt, updateAt, Miner.take_damage,
    Miner.new, MainState.new, MAX_ROUNDS, ROUND_DURATION, STARTING_HEALTH,
    List.range, List.foldl, List.replicate]

/-!  Reachability: the states the program's event loop can produce.
`MainState::new` starts the session; each frame calls `update`; a click is
dispatched on the current phase — player economy commands during Playing,
`start_next_round` on the round-end screen (guarded by the `if let` on
`round_results`), `restart_game` on the game-over screen. -/

/-- A player command from `handle_game_ui_click`. -/
inductive PlayerCmd where
  | upgradePickaxe
  | upgradeMine
  | contribute (amount : ℚ)

def MainState.applyPlayerCmd (s : MainState) : PlayerCmd → MainState
  | PlayerCmd.upgradePickaxe => { s with player := s.player.upgrade_pickaxe.2 }
  | PlayerCmd.upgradeMine => { s with player := s.player.upgrade_mine.2 }
  | PlayerCmd.contribute a => { s with player := s.player.contribute_gold a }

/-- The bots' donation fraction is drawn from `gen_range(0.1..0.6)`. -/
def DecisionValid : BotDecision → Prop
  | BotDecision.contribute f => 1/10 ≤ f ∧ f < 3/5
  | _ => True

inductive Reachable : MainState → Prop where
  | init (now : ℚ) : Reachable (MainState.new now)
  | tick {s : MainState} (now : ℚ) (ds : Nat → BotDecision)
      (hds : ∀ i, DecisionValid (ds i)) (hr : Reachable s) :
      Reachable (s.update now ds)
  | playerCmd {s : MainState} (c : PlayerCmd) (hr : Reachable s)
      (hp : s.game_state = GameState.Playing) :
      Reachable (s.applyPlayerCmd c)
  | advance {s : MainState} (now : ℚ) (hr : Reachable s)
      (hp : s.game_state = GameState.RoundEnd)
      (hres : s.round_results ≠ none) :
      Reachable (s.start_next_round now)
  | restartCmd {s : MainState} (now : ℚ) (hr : Reachable s)
      (hp : s.game_state = GameState.GameOver) :
      Reachable (s.restart_game now)

/-- C9 (amended): in every reachable state, `round_results` is `none`
exactly while the phase is Playing — so it is populated not only in
RoundEnd but also in every GameOver state, because `end_round` stores the
results before choosing either phase; it is cleared only by
`start_next_round` and `restart_game`. -/
theorem round_results_playing_iff (s : MainState) (h : Reachable s) :
    s.round_results = none ↔ s.game_state = GameState.Playing := by
  induction h with
  | init now => simp [MainState.new]
  | @tick s now ds hds hr ih =>
      by_cases hp : s.game_state = GameState.Playing
      · by_cases hd : ROUND_DURATION ≤ now - s.round_start_time
        · rw [update_playing_end s now ds hp hd]
          constructor
          · intro hnone
            rw [end_round_results] at hnone
            simp at hnone
          · intro hpl
            exact absurd hpl (end_round_not_playing _)
        · rw [update_playing_noend s now ds hp hd]
          rw [(playingStep_fields s now ds).2.2.2,
            (playingStep_fields s now ds).2.2.1]
          exact ih
      · rw [update_frozen s now ds hp]
        exact ih
  | @playerCmd s c hr hp ih =>
      have h1 : (s.applyPlayerCmd c).round_results = s.round_results := by
        cases c <;> rfl
      have h2 : (s.applyPlayerCmd c).game_state = s.game_state := by
        cases c <;> rfl
      rw [h1, h2]
      exact ih
  | @advance s now hr hp hres ih => simp [MainState.start_next_round]
  | @restartCmd s now hr hp ih => simp [MainState.restart_game]

theorem round_results_playing_iff_witness :
    (MainState.new 0).round_results = none ↔
      (MainState.new 0).game_state = GameState.Playing :=
  round_results_playing_iff (MainState.new 0) (Reachable.init 0)

/-!  A concrete match in which the player donates nothing, every bot
donates each round, and the player dies at the end of round 4 — reaching
GameOver with `round_results` still populated. -/

def dsRound1 : Nat → BotDecision := fun _ => BotDecision.contribute (1/2)
def dsRound2 : Nat → BotDecision := fun _ => BotDecision.contribute (1/3)
def dsRound3 : Nat → BotDecision := fun _ => BotDecision.contribute (1/4)
def dsRound4 : Nat → BotDecision := fun _ => BotDecision.contribute (1/5)

def roundTrace1 : MainState := (MainState.new 0).update 60 dsRound1
def roundTrace2 : MainState :=
  (roundTrace1.start_next_round 60).update 120 dsRound2
def roundTrace3 : MainState :=
  (roundTrace2.start_next_round 120).update 180 dsRound3
def cexTrace : MainState :=
  (roundTrace3.start_next_round 180).update 240 dsRound4

theorem roundTrace1_eq : roundTrace1 =
    { player := { miner_type := MinerType.Player, gold := 2, donated_gold := 0,
                  pickaxe_level := 0, mine_level := 0, last_mine_time := 60,
                  health := 7, alive := true }
      bots := [
        { miner_type := MinerType.Bot, gold := 1, donated_gold := 0,
          pickaxe_level := 0, mine_level := 0, last_mine_time := 60,
          health := 10, alive := true },
        { miner_type := MinerType.Bot, gold := 1, donated_gold := 0,
          pickaxe_level := 0, mine_level := 0, last_mine_time := 60,
          health := 9, alive := true },
        { miner_type := MinerType.Bot, gold := 1, donated_gold := 0,
          pickaxe_level := 0, mine_level := 0, last_mine_time := 60,
          health := 8, alive := true } ]
      current_round := 1
      round_start_time := 0
      game_state := GameState.RoundEnd
      round_results := some [(1, 1), (2, 1), (3, 1), (0, 0)] } := by
  norm_num [roundTrace1, dsRound1, MainState.update, MainState.playingStep,
    MainState.accrued, MainState.bot_make_decision, Miner.botDecide,
    Miner.update, Miner.mine_rate, Miner.gold_per_mine, Miner.contribute_gold,
    MainState.end_round, MainState.scored, rankResults, rawResults, botEntries,
    sortResults, insertEntry, applyDamages, damageAt, updateAt,
    Miner.take_damage, Miner.new, MainState.new, MAX_ROUNDS, ROUND_DURATION,
    STARTING_HEALTH, List.range, List.foldl, List.replicate]

theorem roundTrace2_eq : roundTrace2 =
    { player := { miner_type := MinerType.Player, gold := 4, donated_gold := 0,
                  pickaxe_level := 0, mine_level := 0, last_mine_time := 120,
                  health := 4, alive := true }
      bots := [
        { miner_type := MinerType.Bot, gold := 2, donated_gold := 0,
          pickaxe_level := 0, mine_level := 0, last_mine_time := 120,
          health := 10, alive := true },
        { miner_type := MinerType.Bot, gold := 2, donated_gold := 0,
          pickaxe_level := 0, mine_level := 0, last_mine_time := 120,
          health := 8, alive := true },
        { miner_type := MinerType.Bot, gold := 2, donated_gold := 0,
          pickaxe_level := 0, mine_level := 0, last_mine_time := 120,
          health := 6, alive := true } ]
      current_round := 2
      round_start_time := 60
      game_state := GameState.RoundEnd
      round_results := some [(1, 1), (2, 1), (3, 1), (0, 0)] } := by
  unfold roundTrace2
  rw [roundTrace1_eq]
  norm_num [dsRound2, MainState.start_next_round, MainState.update,
    MainState.playingStep, MainState.accrued, MainState.bot_make_decision,
    Miner.botDecide, Miner.update, Miner.mine_rate, Miner.gold_per_mine,
    Miner.contribute_gold, MainState.end_round, MainState.scored, rankResults,
    rawResults, botEntries, sortResults, insertEntry, applyDamages, damageAt,
    updateAt, Miner.take_damage, MAX_ROUNDS, ROUND_DURATION,
    List.range, List.foldl]

theorem roundTrace3_eq : roundTrace3 =
    { player := { miner_type := MinerType.Player, gold := 6, donated_gold := 0,
                  pickaxe_level := 0, mine_level := 0, last_mine_time := 180,
                  health := 1, alive := true }
      bots := [
        { miner_type := MinerType.Bot, gold := 3, donated_gold := 0,
          pickaxe_level := 0, mine_level := 0, last_mine_time := 180,
          health := 10, alive := true },
        { miner_type := MinerType.Bot, gold := 3, donated_gold := 0,
          pickaxe_level := 0, mine_level := 0, last_mine_time := 180,
          health := 7, alive := true },
        { miner_type := MinerType.Bot, gold := 3, donated_gold := 0,
          pickaxe_level := 0, mine_level := 0, last_mine_time := 180,
          health := 4, alive := true } ]
      current_round := 3
      round_start_time := 120
      game_state := GameState.RoundEnd
      round_results := some [(1, 1), (2, 1), (3, 1), (0, 0)] } := by
  unfold roundTrace3
  rw [roundTrace2_eq]
  norm_num [dsRound3, MainState.start_next_round, MainState.update,
    MainState.playingStep, MainState.accrued, MainState.bot_make_decision,
    Miner.botDecide, Miner.update, Miner.mine_rate, Miner.gold_per_mine,
    Miner.contribute_gold, MainState.end_round, MainState.scored, rankResults,
    rawResults, botEntries, sortResults, insertEntry, applyDamages, damageAt,
    updateAt, Miner.take_damage, MAX_ROUNDS, ROUND_DURATION,
    List.range, List.foldl]

theorem cexTrace_eq : cexTrace =
    { player := { miner_type := MinerType.Player, gold := 8, donated_gold := 0,
                  pickaxe_level := 0, mine_level := 0, last_mine_time := 240,
                  health := 0, alive := false }
      bots := [
        { miner_type := MinerType.Bot, gold := 4, donated_gold := 0,
          pickaxe_level := 0, mine_level := 0, last_mine_time := 240,
          health := 10, alive := true },
        { miner_type := MinerType.Bot, gold := 4, donated_gold := 0,
          pickaxe_level := 0, mine_level := 0, last_mine_time := 240,
          health := 6, alive := true },
        { miner_type := MinerType.Bot, gold := 4, donated_gold := 0,
          pickaxe_level := 0, mine_level := 0, last_mine_time := 240,
          health := 2, alive := true } ]
      current_round := 4
      round_start_time := 180
      game_state := GameState.GameOver
      round_results := some [(1, 1), (2, 1), (3, 1), (0, 0)] } := by
  unfold cexTrace
  rw [roundTrace3_eq]
  norm_num [dsRound4, MainState.start_next_round, MainState.update,
    MainState.playingStep, MainState.accrued, MainState.bot_make_decision,
    Miner.botDecide, Miner.update, Miner.mine_rate, Miner.gold_per_mine,
    Miner.contribute_gold, MainState.end_round, MainState.scored, rankResults,
    rawResults, botEntries, sortResults, insertEntry, applyDamages, damageAt,
    updateAt, Miner.take_damage, MAX_ROUNDS, ROUND_DURATION,
    List.range, List.foldl]

/-- C9 counterexample: a reachable state (end of round 4 of a real match
trace) in phase GameOver whose `lastRoundResults` is still populated —
`end_round` stores the results before moving to GameOver, so they are not
`None` outside RoundEnd. -/
theorem gameover_results_cex :
    Reachable cexTrace
  ∧ cexTrace.game_state = GameState.GameOver
  ∧ cexTrace.round_results ≠ none := by
  have hv1 : ∀ i, DecisionValid (dsRound1 i) :=
    fun _ => ⟨by norm_num, by norm_num⟩
  have hv2 : ∀ i, DecisionValid (dsRound2 i) :=
    fun _ => ⟨by norm_num, by norm_num⟩
  have hv3 : ∀ i, DecisionValid (dsRound3 i) :=
    fun _ => ⟨by norm_num, by norm_num⟩
  have hv4 : ∀ i, DecisionValid (dsRound4 i) :=
    fun _ => ⟨by norm_num, by norm_num⟩
  have r1 : Reachable roundTrace1 :=
    Reachable.tick 60 dsRound1 hv1 (Reachable.init 0)
  have r1b : Reachable (roundTrace1.start_next_round 60) :=
    Reachable.advance 60 r1 (by rw [roundTrace1_eq]) (by rw [roundTrace1_eq]; simp)
  have r2 : Reachable roundTrace2 := Reachable.tick 120 dsRound2 hv2 r1b
  have r2b : Reachable (roundTrace2.start_next_round 120) :=
    Reachable.advance 120 r2 (by rw [roundTrace2_eq]) (by rw [roundTrace2_eq]; simp)
  have r3 : Reachable roundTrace3 := Reachable.tick 180 dsRound3 hv3 r2b
  have r3b : Reachable (roundTrace3.start_next_round 180) :=
    Reachable.advance 180 r3 (by rw [roundTrace3_eq]) (by rw [roundTrace3_eq]; simp)
  refine ⟨Reachable.tick 240 dsRound4 hv4 r3b, ?_, ?_⟩
  · rw [cexTrace_eq]
  · rw [cexTrace_eq]
    simp
